import Mathlib

/-!
Verification of the orchestration core of the jephthah agent:
the rate/threat governor (`src/brain/instincts.py`), the priority task
queue and dispatcher (`src/brain/planner.py`), the goal store
(`src/brain/memory.py`, `src/brain/goals.py`) and the idempotency
ledger pattern of `src/main.py`.

Machine conventions: `datetime.utcnow()` is an injected clock measured
in integer seconds (`Int`, so that `now - ts` may be negative exactly as
a `timedelta` may); `timedelta(hours=1)` is `3600`; Python dicts holding
per-key data are total functions with the dict's `get` default; Python
sets of strings are duplicate-free lists.
-/

set_option maxHeartbeats 1000000
set_option maxRecDepth 100000
set_option linter.unusedVariables false
set_option linter.unnecessarySeqFocus false
set_option linter.unnecessarySimpa false

/-! ### Substring containment, Python's `needle in hay` -/

/-- Python list/str startswith on explicit character lists. -/
def startsWithList : List Char → List Char → Bool
  | [], _ => true
  | _ :: _, [] => false
  | a :: as, b :: bs => a == b && startsWithList as bs

/-- Python substring containment over character lists. -/
def containsList (needle : List Char) : List Char → Bool
  | [] => startsWithList needle []
  | b :: rest => startsWithList needle (b :: rest) || containsList needle rest

/-- Python's `needle in hay` for strings. -/
def strIn (needle hay : String) : Bool :=
  containsList needle.data hay.data

/-- Python's `str.lower()`, character by character. -/
def strLower (s : String) : String :=
  ⟨s.data.map Char.toLower⟩

/-- Python's `any(word in hay for word in words)`. -/
def anyKw (words : List String) (hay : String) : Bool :=
  words.any (fun w => strIn w hay)

/-! ### ThreatLevel and Instinct.detect_threat (src/brain/instincts.py:15-90) -/

/-- Threat severity levels (`class ThreatLevel(int, Enum)`). -/
inductive ThreatLevel
  | NONE
  | LOW
  | MEDIUM
  | HIGH
  | CRITICAL
deriving DecidableEq, Repr

/-- Keyword set of the account-ban branch of `detect_threat`. -/
def suspension_kws : List String := ["banned", "suspended", "terminated", "locked"]

/-- Keyword set of the rate-limiting branch of `detect_threat`. -/
def rate_kws : List String := ["rate limit", "too many requests", "slow down"]

/-- Keyword set of the login-failure branch of `detect_threat`. -/
def auth_kws : List String := ["wrong password", "invalid credentials", "login failed"]

/-- Keyword set of the security-challenge branch of `detect_threat`. -/
def challenge_kws : List String := ["verify", "confirm identity", "2fa", "verification"]

/-- Keyword set of the money-at-risk branch of `detect_threat`. -/
def breach_kws : List String := ["unauthorized", "fraud", "suspicious"]

/-- Classification part of `Instinct.detect_threat`
(src/brain/instincts.py:50-90): a chain of substring checks over the
lowercased event, first match wins.  The threat-recording side effect
(`_record_threat`) does not affect the returned level and is not
modelled. -/
def detect_threat (event : String) : ThreatLevel :=
  let e := strLower event
  if anyKw suspension_kws e then ThreatLevel.HIGH
  else if strIn "captcha" e then ThreatLevel.MEDIUM
  else if anyKw rate_kws e then ThreatLevel.MEDIUM
  else if anyKw auth_kws e then ThreatLevel.LOW
  else if anyKw challenge_kws e then ThreatLevel.MEDIUM
  else if anyKw breach_kws e then ThreatLevel.CRITICAL
  else ThreatLevel.NONE

/-! ### Instinct rate state and should_proceed (src/brain/instincts.py:109-168) -/

/-- Mutable rate/threat state of `class Instinct`.  `failed_logins` is the
dict with `.get(platform, 0)`; `blocked_platforms` maps a platform to its
unblock time when present; `action_timestamps` is the per-key sliding
window, missing keys reading as `[]`. -/
structure Instinct where
  max_daily_api_calls : Nat
  max_daily_spend : ℚ
  max_failed_logins : Nat
  api_calls_today : Nat
  money_spent_today : ℚ
  failed_logins : String → Nat
  blocked_platforms : String → Option Int
  action_timestamps : String → List Int

/-- Fresh state built by `Instinct.__init__`. -/
def Instinct.init : Instinct :=
  { max_daily_api_calls := 1000
    max_daily_spend := 50
    max_failed_logins := 3
    api_calls_today := 0
    money_spent_today := 0
    failed_logins := fun _ => 0
    blocked_platforms := fun _ => none
    action_timestamps := fun _ => [] }

/-- Python's `platform or 'global'` (empty string is falsy). -/
def plat_str (platform : Option String) : String :=
  match platform with
  | some p => if p = "" then "global" else p
  | none => "global"

/-- The window key `f"{action}_{platform or 'global'}"`. -/
def rate_key (action : String) (platform : Option String) : String :=
  action ++ "_" ++ plat_str platform

/-- The per-action-type hourly budgets (`limits.get(action, 60)`). -/
def rate_limits (action : String) : Nat :=
  if action = "login" then 5
  else if action = "post" then 20
  else if action = "apply" then 30
  else if action = "message" then 50
  else if action = "follow" then 100
  else 60

/-- `Instinct._check_rate_limit` (src/brain/instincts.py:138-168): prune
timestamps older than one hour, deny when the pruned window has reached
the action's budget, otherwise append `now` and allow. -/
def check_rate_limit (s : Instinct) (action : String) (platform : Option String)
    (now : Int) : Bool × Instinct :=
  let key := rate_key action platform
  let pruned := (s.action_timestamps key).filter (fun ts => now - ts < 3600)
  if rate_limits action ≤ pruned.length then
    (false, { s with action_timestamps := fun k => if k = key then pruned else s.action_timestamps k })
  else
    (true, { s with action_timestamps := fun k => if k = key then pruned ++ [now] else s.action_timestamps k })

/-- Deletion of an expired platform block (`del self.blocked_platforms[platform]`). -/
def erase_block (s : Instinct) (p : String) : Instinct :=
  { s with blocked_platforms := fun q => if q = p then none else s.blocked_platforms q }

/-- The `if platform and self.failed_logins.get(platform, 0) >= self.max_failed_logins`
guard of `should_proceed`. -/
def login_fail_hit (s : Instinct) (platform : Option String) : Bool :=
  match platform with
  | some p => !(p == "") && decide (s.max_failed_logins ≤ s.failed_logins p)
  | none => false

/-- Checks 2-5 of `should_proceed`, run after the platform-block check. -/
def sp_checks (s : Instinct) (action : String) (platform : Option String)
    (now : Int) : Bool × String × Instinct :=
  if login_fail_hit s platform then
    (false, "Too many failed logins on " ++ plat_str platform, s)
  else if s.max_daily_api_calls ≤ s.api_calls_today then
    (false, "Daily API call limit reached", s)
  else if s.max_daily_spend ≤ s.money_spent_today then
    (false, "Daily spending limit reached", s)
  else
    let r := check_rate_limit s action platform now
    if r.1 then (true, "Proceed", r.2) else (false, "Rate limited - too fast", r.2)

/-- `Instinct.should_proceed` (src/brain/instincts.py:109-136).  Returns
the `(allow, reason)` pair together with the post-call state. -/
def should_proceed (s : Instinct) (action : String) (platform : Option String)
    (now : Int) : Bool × String × Instinct :=
  match platform with
  | some p =>
    if p = "" then sp_checks s action (some p) now
    else
      match s.blocked_platforms p with
      | some unblock_time =>
        if now < unblock_time then
          (false, "Platform " ++ p ++ " is blocked", s)
        else
          sp_checks (erase_block s p) action (some p) now
      | none => sp_checks s action (some p) now
  | none => sp_checks s action none now

/-! ### Task and TaskPriority (src/brain/planner.py:18-59).  The planner
lives in its own namespace because Lean's core library already owns the
root name `Task`. -/

namespace Planner

/-- `class TaskPriority(int, Enum)`: lower value means higher importance. -/
inductive TaskPriority
  | CRITICAL
  | HIGH
  | MEDIUM
  | LOW
  | IDLE
deriving DecidableEq, Repr

/-- The integer value of a `TaskPriority` member. -/
def TaskPriority.val : TaskPriority → Nat
  | .CRITICAL => 1
  | .HIGH => 2
  | .MEDIUM => 3
  | .LOW => 4
  | .IDLE => 5

/-- `class Task` (src/brain/planner.py:26-59), restricted to the fields
the orchestration claims read.  `details`, `deadline`, `created_at` and
`goal_id` play no role in queue ordering, dispatch or retry and are
omitted. -/
structure Task where
  name : String
  task_type : String
  action : String
  priority : TaskPriority
  target : String
  attempts : Nat
  max_attempts : Nat
  status : String
deriving DecidableEq, Repr

instance : Inhabited Task :=
  ⟨{ name := "", task_type := "", action := "", priority := .MEDIUM,
     target := "", attempts := 0, max_attempts := 3, status := "pending" }⟩

/-- Build a task the way `Task.__init__` does: zero attempts, three max
attempts, status pending. -/
def Task.mk0 (name task_type action : String) (priority : TaskPriority) : Task :=
  { name := name, task_type := task_type, action := action, priority := priority,
    target := "", attempts := 0, max_attempts := 3, status := "pending" }

/-- The priority value `self.priority.value` that `Task.__lt__`
compares. -/
def pri (t : Task) : Nat := t.priority.val

/-- `Task.__lt__` (src/brain/planner.py:46-48): comparison is by the
priority value ALONE - there is no insertion-sequence tie-break. -/
def Task.lt (t u : Task) : Bool :=
  pri t < pri u

/-! ### The CPython heapq algorithm used by TaskScheduler.add_task /
get_next_task.  `heapq.heappush` and `heapq.heappop` are modelled
operation for operation from CPython's `Lib/heapq.py` (`_siftdown`,
`_siftup`), with `Task.lt` as the element comparison. -/

/-- Total indexing `a[i]` on the heap list (all verified uses are in
range). -/
def idx (a : List Task) (i : Nat) : Task :=
  a.getD i default

/-- Parent index of node `j` in the implicit binary tree. -/
def par (j : Nat) : Nat := (j - 1) / 2

/-- The `while pos > startpos` loop of CPython `heapq._siftdown` after
reading `newitem = heap[pos]`: walk up from `pos`, moving each larger
parent down, and finally store `newitem`.  The extra `fuel` argument is
only an upper bound on the number of iterations that makes the loop
structurally recursive; since the position strictly decreases, any
`fuel ≥ pos` yields the loop's exact behaviour (all callers pass
`fuel = pos`). -/
def siftdownLoop : Nat → List Task → Nat → Task → Nat → List Task
  | 0, a, _, newitem, pos => a.set pos newitem
  | fuel + 1, a, startpos, newitem, pos =>
    if startpos < pos then
      let parentpos := par pos
      let parent := idx a parentpos
      if Task.lt newitem parent then
        siftdownLoop fuel (a.set pos parent) startpos newitem parentpos
      else
        a.set pos newitem
    else
      a.set pos newitem

/-- CPython `heapq._siftdown(heap, startpos, pos)`. -/
def siftdown (a : List Task) (startpos pos : Nat) : List Task :=
  siftdownLoop pos a startpos (idx a pos) pos

/-- The `while childpos < endpos` loop of CPython `heapq._siftup`:
follow the smaller child down to a leaf, then place `newitem` there and
bubble it up with `_siftdown`.  As in `siftdownLoop`, `fuel` only bounds
the iteration count (`endpos - pos` strictly decreases, so any
`fuel ≥ endpos - pos` yields the loop's exact behaviour). -/
def siftupLoop : Nat → List Task → Nat → Nat → Task → Nat → List Task
  | 0, a, startpos, _, newitem, pos => siftdown (a.set pos newitem) startpos pos
  | fuel + 1, a, startpos, endpos, newitem, pos =>
    if 2 * pos + 1 < endpos then
      let childpos := 2 * pos + 1
      let rightpos := childpos + 1
      let cp :=
        if rightpos < endpos && !(Task.lt (idx a childpos) (idx a rightpos)) then rightpos
        else childpos
      siftupLoop fuel (a.set pos (idx a cp)) startpos endpos newitem cp
    else
      siftdown (a.set pos newitem) startpos pos

/-- CPython `heapq._siftup(heap, pos)` (with `endpos = len(heap)` and
`startpos = pos` as in the source, reading `newitem = heap[pos]`). -/
def siftup (a : List Task) (pos : Nat) : List Task :=
  siftupLoop a.length a pos a.length (idx a pos) pos

/-- CPython `heapq.heappush(heap, item)`: append then `_siftdown`. -/
def heappush (a : List Task) (item : Task) : List Task :=
  siftdown (a ++ [item]) 0 a.length

/-- CPython `heapq.heappop(heap)`: pop the last element; on a non-empty
remainder move it to the root and `_siftup`.  The empty heap returns
`none` (the `while self.task_queue` guard in the scheduler prevents the
Python `IndexError`). -/
def heappop (a : List Task) : Option (Task × List Task) :=
  match a with
  | [] => none
  | _ :: _ =>
    let lastelt := a.getLastD default
    let rest := a.dropLast
    match rest with
    | [] => some (lastelt, [])
    | _ :: _ => some (idx rest 0, siftup (rest.set 0 lastelt) 0)

/-! ### TaskScheduler.get_next_task (src/brain/planner.py:88-99) -/

/-- The `while self.task_queue` loop of `get_next_task`, with `fuel`
bounding the iteration count as above (each `heappop` shortens the
queue by one, so any `fuel ≥ q.length` yields the loop's exact
behaviour; `get_next_task` passes `q.length`).  Besides the returned
task and the remaining queue, the skipped tasks are returned so that
their state is observable: the source merely logs and `continue`s over
them, mutating nothing. -/
def getNextLoop : Nat → List Task → Option Task × List Task × List Task
  | 0, q => (none, q, [])
  | fuel + 1, q =>
    match heappop q with
    | none => (none, q, [])
    | some (t, q') =>
      if t.max_attempts ≤ t.attempts then
        let r := getNextLoop fuel q'
        (r.1, r.2.1, t :: r.2.2)
      else
        (some t, q', [])

/-- `TaskScheduler.get_next_task`: repeatedly pop; silently drop any
popped task whose attempts reached `max_attempts`; return the first
task under its retry budget, or `none` when the queue runs out. -/
def get_next_task (q : List Task) : Option Task × List Task × List Task :=
  getNextLoop q.length q

/-! ### TaskScheduler.execute_task (src/brain/planner.py:167-201) -/

/-- Outcome of `await handler(task)`: a returned value whose truthiness
is `result`, or a raised exception. -/
inductive HandlerOutcome
  | ok (result : Bool)
  | exn
deriving DecidableEq, Repr

/-- Result of one `execute_task` call: the returned boolean, the task as
mutated by the call, and the tasks re-added to the queue (empty or the
task itself). -/
structure ExecResult where
  result : Bool
  task : Task
  requeued : List Task
deriving DecidableEq, Repr

/-- `TaskScheduler.execute_task`: increment `attempts`, mark running,
look up the handler by `task_type` (skip and return false when absent),
then invoke it; a truthy result marks the task completed, a falsy one
marks it failed, and an exception marks it error and re-queues the task
while `attempts < max_attempts`.  No rate-governor check of any kind
appears in the source. -/
def execute_task (handlers : String → Option (Task → HandlerOutcome)) (t : Task) :
    ExecResult :=
  let t1 : Task := { t with attempts := t.attempts + 1, status := "running" }
  match handlers t1.task_type with
  | none => { result := false, task := { t1 with status := "skipped" }, requeued := [] }
  | some h =>
    match h t1 with
    | .ok r =>
      { result := r
        task := { t1 with status := if r then "completed" else "failed" }
        requeued := [] }
    | .exn =>
      let t2 : Task := { t1 with status := "error" }
      { result := false
        task := t2
        requeued := if t2.attempts < t2.max_attempts then [t2] else [] }

end Planner

/-! ### Goal store (src/brain/memory.py:277-290, src/brain/goals.py:180-182) -/

/-- A row of the `goals` table, restricted to the fields
`update_goal_progress` reads or writes. -/
structure Goal where
  id : Nat
  title : String
  category : String
  target_value : ℚ
  current_value : ℚ
  priority : Nat
  status : String
  completed_at : Option Int
deriving DecidableEq, Repr

/-- `MemoryManager.update_goal_progress` (src/brain/memory.py:277-290):
locate the first goal with the given id and, when found, ASSIGN
`current_value = new_value` (no maximum is taken), flipping the status
to completed when `new_value ≥ target_value`.
`GoalManager.report_progress` (src/brain/goals.py:180-182) delegates
here unchanged. -/
def update_goal_progress : List Goal → Nat → ℚ → Int → List Goal
  | [], _, _, _ => []
  | g :: gs, goal_id, new_value, now =>
    if g.id = goal_id then
      { g with
        current_value := new_value
        status := if g.target_value ≤ new_value then "completed" else g.status
        completed_at := if g.target_value ≤ new_value then some now else g.completed_at } :: gs
    else
      g :: update_goal_progress gs goal_id new_value now

/-- `GoalManager.report_progress` is a direct delegation to
`memory.update_goal_progress`. -/
def report_progress (db : List Goal) (goal_id : Nat) (value : ℚ) (now : Int) :
    List Goal :=
  update_goal_progress db goal_id value now

/-! ### Idempotency ledger (src/main.py:192-263 `_check_emails`,
src/main.py:385-449 `_join_tech_forums`).  Both loops keep one durable
set per namespace (`data/replied_emails.json`, resp.
`data/registered_forums.json`): the set is loaded from its file at loop
start, membership (`key in set`) skips already-performed actions, and
after each successful side effect the key is added and the whole set is
immediately rewritten to the file (`json.dump(list(s), f)`). -/

/-- In-memory sets and durable file contents, one duplicate-free list
per namespace; a missing file reads as the empty set. -/
structure LedgerState where
  mem : String → List String
  store : String → List String

/-- Fresh process with no data files. -/
def LedgerState.init : LedgerState :=
  { mem := fun _ => [], store := fun _ => [] }

/-- Startup (or restart) load: every namespace set is read back from
its file, replacing the in-memory set. -/
def ledger_load (st : LedgerState) : LedgerState :=
  { st with mem := st.store }

/-- `hasDone(ns, key)`: the membership test `key in replied_ids` /
`forum_name in already_registered`. -/
def has_done (st : LedgerState) (ns key : String) : Bool :=
  (st.mem ns).contains key

/-- `markDone(ns, key)`: `s.add(key)` followed by the synchronous
`json.dump(list(s), f)` rewrite of the namespace's file. -/
def mark_done (st : LedgerState) (ns key : String) : LedgerState :=
  let updated := if (st.mem ns).contains key then st.mem ns else st.mem ns ++ [key]
  { mem := fun n => if n = ns then updated else st.mem n
    store := fun n => if n = ns then updated else st.store n }

/-- The ledger operations a run interleaves: marking a key done in a
namespace, or a process restart (which reloads every set from disk). -/
inductive LedgerOp
  | mark (ns key : String)
  | restart
deriving DecidableEq

/-- Apply one ledger operation. -/
def ledger_step (st : LedgerState) : LedgerOp → LedgerState
  | .mark ns key => mark_done st ns key
  | .restart => ledger_load st

/-- Run a sequence of ledger operations from a fresh process. -/
def ledger_run (st : LedgerState) : List LedgerOp → LedgerState
  | [] => st
  | op :: ops => ledger_run (ledger_step st op) ops

/-! ### Claim-side definitions -/

/-- Condition 1 of C2: the platform is currently blocked and the block
has not expired (mirroring the truthiness guard `if platform and ...`). -/
def blocked_active (s : Instinct) (platform : Option String) (now : Int) : Bool :=
  match platform with
  | some p =>
    if p = "" then false
    else
      match s.blocked_platforms p with
      | some u => decide (now < u)
      | none => false
  | none => false

/-- Condition 3 of C2: the daily API-call count reached its budget. -/
def api_cond (s : Instinct) : Bool :=
  decide (s.max_daily_api_calls ≤ s.api_calls_today)

/-- Condition 4 of C2: the daily spend reached its budget. -/
def spend_cond (s : Instinct) : Bool :=
  decide (s.max_daily_spend ≤ s.money_spent_today)

/-- Condition 5 of C2: the one-hour sliding-window count for the action
reached the action's budget. -/
def window_cond (s : Instinct) (action : String) (platform : Option String)
    (now : Int) : Bool :=
  decide (rate_limits action ≤
    ((s.action_timestamps (rate_key action platform)).filter
      (fun ts => now - ts < 3600)).length)

/-- The reason string the first matching condition of C2 produces,
with "Proceed" when no condition matches. -/
def deny_reason (s : Instinct) (action : String) (platform : Option String)
    (now : Int) : String :=
  if blocked_active s platform now then
    "Platform " ++ (platform.getD "") ++ " is blocked"
  else if login_fail_hit s platform then
    "Too many failed logins on " ++ plat_str platform
  else if api_cond s then "Daily API call limit reached"
  else if spend_cond s then "Daily spending limit reached"
  else if window_cond s action platform now then "Rate limited - too fast"
  else "Proceed"

/-- Scenario of C5: `n` sequential `should_proceed("apply", None)` calls
against the injected clock held inside one hour (all at second 0),
collecting each call's allow flag. -/
def simulate_apply : Nat → Instinct → List Bool
  | 0, _ => []
  | n + 1, s =>
    let r := should_proceed s "apply" none 0
    r.1 :: simulate_apply n r.2.2

/-- The corrected C7 classification table: (keyword-set, level) rows in
source order, including the security-challenge row the claim omitted;
the first row with a keyword occurring in the lowercased event wins,
and no match yields NONE. -/
def threat_table : List (List String × ThreatLevel) :=
  [(suspension_kws, ThreatLevel.HIGH),
   (["captcha"], ThreatLevel.MEDIUM),
   (rate_kws, ThreatLevel.MEDIUM),
   (auth_kws, ThreatLevel.LOW),
   (challenge_kws, ThreatLevel.MEDIUM),
   (breach_kws, ThreatLevel.CRITICAL)]

/-- First-match evaluation of `threat_table`. -/
def classify_table (event : String) : ThreatLevel :=
  match threat_table.find? (fun row => anyKw row.1 (strLower event)) with
  | some row => row.2
  | none => ThreatLevel.NONE

/-- A push or pop on the scheduler's priority queue (C3). -/
inductive QOp
  | push (t : Planner.Task)
  | pop

/-- Apply one queue operation the way `add_task` / `get_next_task` do at
the heap level: `heapq.heappush`, resp. `heapq.heappop` discarding the
popped task (an empty queue is left unchanged). -/
def qstep (q : List Planner.Task) : QOp → List Planner.Task
  | .push t => Planner.heappush q t
  | .pop =>
    match Planner.heappop q with
    | none => q
    | some r => r.2

/-- The queue contents after a sequence of pushes and pops from empty. -/
def runQueue (ops : List QOp) : List Planner.Task :=
  ops.foldl qstep []

namespace Planner

/-- Priority-queue heap invariant: every non-root node's priority value
is at least its parent's. -/
def IsHeap (a : List Task) : Prop :=
  ∀ j, 0 < j → j < a.length → pri (idx a (par j)) ≤ pri (idx a j)

/-- Loop invariant of the CPython sift routines: the heap property
holds at every parent-child edge not touching position `pos` (the
"hole"). -/
def heapExceptAt (a : List Task) (pos : Nat) : Prop :=
  ∀ j, 0 < j → j < a.length → j ≠ pos → par j ≠ pos →
    pri (idx a (par j)) ≤ pri (idx a j)

/-- Loop invariant of `_siftdown`: the children of the hole are no
smaller than the item being placed. -/
def childrenGe (a : List Task) (pos : Nat) (x : Task) : Prop :=
  ∀ j, 0 < j → j < a.length → par j = pos → pri x ≤ pri (idx a j)

/-- Loop invariant of both sift routines: the children of the hole are
no smaller than the hole's parent. -/
def childrenGeParPos (a : List Task) (pos : Nat) : Prop :=
  0 < pos → ∀ j, 0 < j → j < a.length → par j = pos →
    pri (idx a (par pos)) ≤ pri (idx a j)

end Planner

/-! ## Theorems -/

/-- C5 counterexample: starting from a fresh rate state, the 31st of 61
sequential `should_proceed("apply", None)` calls inside one hour is
DENIED, contradicting the claim that calls 1 through 60 are allowed:
"apply" has its own 30-per-hour budget in the limits table, so the
61-call scenario never reaches the default 60-per-hour budget. -/
theorem apply_call31_denied_counterexample :
    (simulate_apply 61 Instinct.init).getD 30 true = false ∧
    rate_limits "apply" = 30 := by decide

/-- C5 (amended): starting from a fresh rate state, 61 sequential
`should_proceed("apply", None)` calls within one hour fall under the
"apply" budget of 30 per hour: calls 1-30 are allowed and calls 31-61
are denied. -/
theorem apply_61_calls_thirty_allowed :
    simulate_apply 61 Instinct.init =
      List.replicate 30 true ++ List.replicate 31 false := by decide

/-- C7 counterexample: the event "verify" contains no keyword of any of
the five categories the claim lists (suspension, captcha, rate-limit,
auth-failure, security-breach), so the claim requires `detect_threat`
to return NONE on it; the source's sixth branch (security challenges:
verify / confirm identity / 2fa / verification) returns MEDIUM instead. -/
theorem detect_threat_verify_counterexample :
    detect_threat "verify" = ThreatLevel.MEDIUM ∧
    anyKw suspension_kws (strLower "verify") = false ∧
    strIn "captcha" (strLower "verify") = false ∧
    anyKw rate_kws (strLower "verify") = false ∧
    anyKw auth_kws (strLower "verify") = false ∧
    anyKw breach_kws (strLower "verify") = false := by decide

/-- C7 (amended): `detect_threat` is the deterministic first-match
keyword table with SIX rows in source order - suspension→HIGH,
captcha→MEDIUM, rate-limit→MEDIUM, auth-failure→LOW,
security-challenge→MEDIUM, security-breach→CRITICAL - and NONE when no
row matches. -/
theorem detect_threat_eq_table (event : String) :
    detect_threat event = classify_table event := by
  unfold detect_threat classify_table threat_table
  have hcap : anyKw ["captcha"] (strLower event) = strIn "captcha" (strLower event) := by
    simp [anyKw]
  cases h1 : anyKw suspension_kws (strLower event) <;>
    cases h2 : strIn "captcha" (strLower event) <;>
      cases h3 : anyKw rate_kws (strLower event) <;>
        cases h4 : anyKw auth_kws (strLower event) <;>
          cases h5 : anyKw challenge_kws (strLower event) <;>
            cases h6 : anyKw breach_kws (strLower event) <;>
              simp [List.find?, hcap, h1, h2, h3, h4, h5, h6]

/-- C4 counterexample: a progress report of 3 on an active goal whose
stored current_value is 5 overwrites it with 3 - the stored value
strictly DECREASES while the goal stays active, contradicting the
claimed monotonic non-decrease. -/
theorem goal_progress_decrease_counterexample :
    let g : Goal := { id := 1, title := "Earn", category := "income",
                      target_value := 100, current_value := 5, priority := 9,
                      status := "active", completed_at := none }
    let db : List Goal := report_progress [g] 1 3 0
    g.status = "active" ∧
    (db.getD 0 g).status = "active" ∧
    (db.getD 0 g).current_value = 3 ∧
    ¬ g.current_value ≤ (db.getD 0 g).current_value := by decide

/-- C4 (amended): a progress report on the first goal matching the id
ASSIGNS the reported value to current_value (so the stored value
decreases whenever a lower value is reported), and flips the status to
"completed" exactly when the reported value reaches target_value; other
goals are untouched. -/
theorem update_goal_progress_sets_value
    (pre post : List Goal) (g : Goal) (gid : Nat) (nv : ℚ) (now : Int)
    (hpre : ∀ g0 ∈ pre, g0.id ≠ gid) (hg : g.id = gid) :
    update_goal_progress (pre ++ g :: post) gid nv now =
      pre ++
        ({ g with
           current_value := nv
           status := if g.target_value ≤ nv then "completed" else g.status
           completed_at := if g.target_value ≤ nv then some now else g.completed_at }
         :: post) := by
  induction pre with
  | nil => simp [update_goal_progress, hg]
  | cons a as ih =>
    have ha : a.id ≠ gid := hpre a (by simp)
    simp only [List.cons_append, update_goal_progress, ha, if_neg ha]
    exact congrArg (a :: ·) (ih (fun g0 hmem => hpre g0 (by simp [hmem])))

/-- Witness for C4's amended theorem at a concrete goal store. -/
theorem update_goal_progress_sets_value_witness :
    (let g : Goal := { id := 1, title := "Earn", category := "income",
                       target_value := 100, current_value := 5, priority := 9,
                       status := "active", completed_at := none }
     update_goal_progress ([] ++ g :: []) 1 3 0 =
       [] ++
         ({ g with
            current_value := 3
            status := if g.target_value ≤ 3 then "completed" else g.status
            completed_at := if g.target_value ≤ 3 then some 0 else g.completed_at }
          :: [])) :=
  update_goal_progress_sets_value [] []
    { id := 1, title := "Earn", category := "income", target_value := 100,
      current_value := 5, priority := 9, status := "active", completed_at := none }
    1 3 0 (by simp) rfl

/-- C9: when the registered handler completes without raising but
returns a falsy result, `execute_task` marks the task "failed", does
NOT re-add it to the queue although attempts are below max_attempts,
and returns the falsy result - the task is dropped with retry budget
remaining. -/
theorem execute_task_falsy_result_drops
    (handlers : String → Option (Planner.Task → Planner.HandlerOutcome))
    (t : Planner.Task) (h : Planner.Task → Planner.HandlerOutcome)
    (hh : handlers t.task_type = some h)
    (hr : h { t with attempts := t.attempts + 1, status := "running" } =
      Planner.HandlerOutcome.ok false)
    (hbudget : t.attempts + 1 < t.max_attempts) :
    (Planner.execute_task handlers t).result = false ∧
    (Planner.execute_task handlers t).task.status = "failed" ∧
    (Planner.execute_task handlers t).requeued = [] := by
  simp [Planner.execute_task, hh, hr]

/-- Witness for C9 at a concrete handler table and task. -/
theorem execute_task_falsy_result_drops_witness :
    (let handlers := fun ty =>
       if ty = "email" then some (fun _ : Planner.Task => Planner.HandlerOutcome.ok false)
       else none
     let t := Planner.Task.mk0 "check_emails" "email" "check_inbox" Planner.TaskPriority.HIGH
     (Planner.execute_task handlers t).result = false ∧
     (Planner.execute_task handlers t).task.status = "failed" ∧
     (Planner.execute_task handlers t).requeued = []) :=
  execute_task_falsy_result_drops _ _ _ rfl rfl (by decide)

/-- C1 counterexample: in a governor state whose daily API budget is
exhausted, `should_proceed` denies every action, yet `execute_task`
still invokes the registered handler, returns its truthy result, marks
the task completed and requeues nothing - contradicting the claim that
the dispatcher consults `should_proceed` and, on denial, requeues the
task and returns false.  (`execute_task`, src/brain/planner.py:167-201,
contains no call to the rate governor; `should_proceed` has no caller
anywhere in the repository.) -/
theorem execute_task_denied_governor_counterexample :
    (let sDeny : Instinct := { Instinct.init with api_calls_today := 1000 }
     let handlers := fun ty =>
       if ty = "email" then some (fun _ : Planner.Task => Planner.HandlerOutcome.ok true)
       else none
     let t := Planner.Task.mk0 "check_emails" "email" "check_inbox" Planner.TaskPriority.HIGH
     (should_proceed sDeny "check_inbox" none 0).1 = false ∧
     (Planner.execute_task handlers t).result = true ∧
     (Planner.execute_task handlers t).requeued = [] ∧
     (Planner.execute_task handlers t).task.status = "completed") := by
  exact ⟨by decide, rfl, rfl, rfl⟩

/-- C1 (amended): `execute_task` performs no rate-governor check at
all: whatever the governor state - even one in which `should_proceed`
denies the task's action - a registered handler returning a truthy
result is invoked, the task is marked completed, nothing is requeued
and the call returns true. -/
theorem execute_task_ignores_governor
    (s : Instinct) (action : String) (platform : Option String) (now : Int)
    (hdeny : (should_proceed s action platform now).1 = false)
    (handlers : String → Option (Planner.Task → Planner.HandlerOutcome))
    (t : Planner.Task) (h : Planner.Task → Planner.HandlerOutcome)
    (hh : handlers t.task_type = some h)
    (hr : h { t with attempts := t.attempts + 1, status := "running" } =
      Planner.HandlerOutcome.ok true) :
    (Planner.execute_task handlers t).result = true ∧
    (Planner.execute_task handlers t).requeued = [] ∧
    (Planner.execute_task handlers t).task.status = "completed" := by
  simp [Planner.execute_task, hh, hr]

/-- Key step for C8: marking `(ns0, key0)` done makes exactly that pair
newly done. -/
theorem has_done_mark_done (st : LedgerState) (ns0 key0 ns key : String) :
    has_done (mark_done st ns0 key0) ns key = true ↔
      (has_done st ns key = true ∨ (ns = ns0 ∧ key = key0)) := by
  unfold has_done mark_done
  by_cases hns : ns = ns0
  · subst hns
    by_cases hmem : key0 ∈ st.mem ns
    · simp [hmem]
      intro h
      exact h ▸ hmem
    · simp [hmem]
  · simp [hns]

/-- Induction core for C8: over any run whose in-memory sets agree with
the stored sets, a key reads as done afterwards iff it was done before
or marked during the run. -/
theorem ledger_run_spec (ops : List LedgerOp) (st : LedgerState)
    (hsync : st.store = st.mem) (ns key : String) :
    has_done (ledger_run st ops) ns key = true ↔
      (has_done st ns key = true ∨ LedgerOp.mark ns key ∈ ops) := by
  induction ops generalizing st with
  | nil => simp [ledger_run]
  | cons op ops ih =>
    cases op with
    | restart =>
      have hload : ledger_step st .restart = st := by
        cases st with
        | mk mem store => simp only [ledger_step, ledger_load] at hsync ⊢; simp [hsync]
      rw [ledger_run, hload, ih st hsync]
      simp
    | mark ns0 key0 =>
      have hsync2 : (ledger_step st (.mark ns0 key0)).store =
          (ledger_step st (.mark ns0 key0)).mem := by
        funext n
        simp only [ledger_step, mark_done]
        split
        · rfl
        · exact congrFun hsync n
      rw [ledger_run, ih _ hsync2]
      simp only [ledger_step]
      rw [has_done_mark_done]
      constructor
      · rintro ((h | ⟨rfl, rfl⟩) | h)
        · exact Or.inl h
        · exact Or.inr (List.mem_cons_self _ _)
        · exact Or.inr (List.mem_cons_of_mem _ h)
      · rintro (h | h)
        · exact Or.inl (Or.inl h)
        · rcases List.mem_cons.mp h with h | h
          · rcases LedgerOp.mark.inj h.symm with ⟨rfl, rfl⟩
            exact Or.inl (Or.inr ⟨rfl, rfl⟩)
          · exact Or.inr h

/-- C8: from a fresh process, after any interleaving of `markDone`
operations and simulated restarts (each restart reloading every
namespace set from storage), `hasDone(ns, key)` is true exactly when
`markDone(ns, key)` occurred in the run - in particular it stays true
across restarts because each `markDone` flushes synchronously, and a
key never marked reads false. -/
theorem ledger_has_done_iff_marked (ops : List LedgerOp) (ns key : String) :
    has_done (ledger_run LedgerState.init ops) ns key = true ↔
      LedgerOp.mark ns key ∈ ops := by
  rw [ledger_run_spec ops LedgerState.init rfl ns key]
  simp [has_done, LedgerState.init]

/-- Characterization of checks 2-5 of `should_proceed` (helper for C2
and C10). -/
theorem sp_checks_spec (s : Instinct) (a : String) (p : Option String) (now : Int) :
    ((sp_checks s a p now).1 = false ↔
      (login_fail_hit s p || api_cond s || spend_cond s || window_cond s a p now) = true)
    ∧ (sp_checks s a p now).2.1 =
        (if login_fail_hit s p then "Too many failed logins on " ++ plat_str p
         else if api_cond s then "Daily API call limit reached"
         else if spend_cond s then "Daily spending limit reached"
         else if window_cond s a p now then "Rate limited - too fast"
         else "Proceed")
    ∧ ((sp_checks s a p now).1 = true →
        (sp_checks s a p now).2.2.action_timestamps (rate_key a p) =
          (s.action_timestamps (rate_key a p)).filter (fun ts => now - ts < 3600) ++ [now]) := by
  by_cases h1 : login_fail_hit s p = true <;>
  by_cases h2 : s.max_daily_api_calls ≤ s.api_calls_today <;>
  by_cases h3 : s.max_daily_spend ≤ s.money_spent_today <;>
  by_cases h4 : rate_limits a ≤
      ((s.action_timestamps (rate_key a p)).filter (fun ts => now - ts < 3600)).length <;>
    simp [sp_checks, check_rate_limit, api_cond, spend_cond, window_cond, h1, h2, h3, h4]

/-- C2: `should_proceed` denies exactly when one of the five conditions
holds - platform blocked and unexpired, failed logins at the cap, daily
API calls at budget, daily spend at budget, or the action's one-hour
window at its per-type budget - the reported reason is that of the
FIRST condition holding in this order, and an allowed call appends the
current timestamp to the action's pruned window. -/
theorem should_proceed_deny_iff_conditions (s : Instinct) (action : String)
    (platform : Option String) (now : Int) :
    ((should_proceed s action platform now).1 = false ↔
      (blocked_active s platform now || login_fail_hit s platform || api_cond s ||
        spend_cond s || window_cond s action platform now) = true)
    ∧ (should_proceed s action platform now).2.1 = deny_reason s action platform now
    ∧ ((should_proceed s action platform now).1 = true →
        (should_proceed s action platform now).2.2.action_timestamps
            (rate_key action platform) =
          (s.action_timestamps (rate_key action platform)).filter
              (fun ts => now - ts < 3600) ++ [now]) := by
  cases platform with
  | none =>
    have h := sp_checks_spec s action none now
    have hb : blocked_active s none now = false := rfl
    have hl : login_fail_hit s none = false := rfl
    simpa [should_proceed, deny_reason, hb, hl] using h
  | some p =>
    by_cases hp : p = ""
    · subst hp
      have h := sp_checks_spec s action (some "") now
      have hb : blocked_active s (some "") now = false := rfl
      have hl : login_fail_hit s (some "") = false := rfl
      simpa [should_proceed, deny_reason, hb, hl] using h
    · cases hbp : s.blocked_platforms p with
      | none =>
        have h := sp_checks_spec s action (some p) now
        have hb : blocked_active s (some p) now = false := by
          simp [blocked_active, hp, hbp]
        simpa [should_proceed, deny_reason, hp, hbp, hb] using h
      | some u =>
        by_cases hu : now < u
        · have hb : blocked_active s (some p) now = true := by
            simp [blocked_active, hp, hbp, hu]
          constructor
          · simp [should_proceed, hp, hbp, hu, hb]
          constructor
          · simp [should_proceed, deny_reason, hp, hbp, hu, hb, Option.getD]
          · simp [should_proceed, hp, hbp, hu]
        · have hb : blocked_active s (some p) now = false := by
            simp [blocked_active, hp, hbp, hu]
          have h := sp_checks_spec (erase_block s p) action (some p) now
          have he1 : login_fail_hit (erase_block s p) (some p) = login_fail_hit s (some p) := rfl
          have he2 : api_cond (erase_block s p) = api_cond s := rfl
          have he3 : spend_cond (erase_block s p) = spend_cond s := rfl
          have he4 : window_cond (erase_block s p) action (some p) now =
              window_cond s action (some p) now := rfl
          have he5 : (erase_block s p).action_timestamps = s.action_timestamps := rfl
          rw [he1, he2, he3, he4, he5] at h
          simpa [should_proceed, deny_reason, hp, hbp, hu, hb] using h

/-- Witness for C2 on the fresh state: no condition holds, the reason
is "Proceed" and the timestamp is recorded. -/
theorem should_proceed_deny_iff_conditions_witness :
    (should_proceed Instinct.init "apply" none 0).2.1 = "Proceed" ∧
    (should_proceed Instinct.init "apply" none 0).2.2.action_timestamps
        (rate_key "apply" none) = [(0 : Int)] := by
  have h := should_proceed_deny_iff_conditions Instinct.init "apply" none 0
  refine ⟨?_, ?_⟩
  · rw [h.2.1]
    decide
  · rw [h.2.2 (by decide)]
    decide

/-- Pruning at a denial never changes what a later in-window count sees
(helper for C10). -/
theorem filter_window_mono (l : List Int) (now later : Int) (h : now ≤ later) :
    (l.filter (fun ts => now - ts < 3600)).filter (fun ts => later - ts < 3600) =
      l.filter (fun ts => later - ts < 3600) := by
  induction l with
  | nil => rfl
  | cons x xs ih =>
    by_cases h2 : later - x < 3600
    · have h1 : now - x < 3600 := by omega
      simp [List.filter_cons, h1, h2, ih]
    · by_cases h1 : now - x < 3600 <;> simp [List.filter_cons, h1, h2, ih]

/-- State effect of checks 2-5 of `should_proceed` (helper for C10):
daily counters, failed-login counts and platform blocks are never
touched, and on a denial each window is either untouched or merely
pruned to the last hour. -/
theorem sp_checks_state (s : Instinct) (a : String) (p : Option String) (now : Int) :
    ((sp_checks s a p now).2.2.api_calls_today = s.api_calls_today)
    ∧ ((sp_checks s a p now).2.2.money_spent_today = s.money_spent_today)
    ∧ ((sp_checks s a p now).2.2.failed_logins = s.failed_logins)
    ∧ ((sp_checks s a p now).2.2.blocked_platforms = s.blocked_platforms)
    ∧ ((sp_checks s a p now).1 = false → ∀ k,
        (sp_checks s a p now).2.2.action_timestamps k = s.action_timestamps k ∨
          (sp_checks s a p now).2.2.action_timestamps k =
            (s.action_timestamps k).filter (fun ts => now - ts < 3600)) := by
  by_cases h1 : login_fail_hit s p = true <;>
  by_cases h2 : s.max_daily_api_calls ≤ s.api_calls_today <;>
  by_cases h3 : s.max_daily_spend ≤ s.money_spent_today <;>
  by_cases h4 : rate_limits a ≤
      ((s.action_timestamps (rate_key a p)).filter (fun ts => now - ts < 3600)).length <;>
    simp [sp_checks, check_rate_limit, h1, h2, h3, h4] <;>
    intro k <;>
    by_cases hk : k = rate_key a p <;>
    simp [hk]

/-- C10: a denied `should_proceed` call appends no timestamp to any
action's sliding window and increments no daily counter: the daily API
count, the daily spend and every failed-login count are unchanged, each
stored window only loses (never gains) entries, and the in-window count
any later call observes is exactly what it would have been without the
denied call. -/
theorem should_proceed_denied_frame (s : Instinct) (action : String)
    (platform : Option String) (now : Int)
    (hdeny : (should_proceed s action platform now).1 = false) :
    ((should_proceed s action platform now).2.2.api_calls_today = s.api_calls_today)
    ∧ ((should_proceed s action platform now).2.2.money_spent_today = s.money_spent_today)
    ∧ ((should_proceed s action platform now).2.2.failed_logins = s.failed_logins)
    ∧ (∀ k, List.Sublist ((should_proceed s action platform now).2.2.action_timestamps k)
        (s.action_timestamps k))
    ∧ (∀ k later, now ≤ later →
        ((should_proceed s action platform now).2.2.action_timestamps k).filter
            (fun ts => later - ts < 3600) =
          (s.action_timestamps k).filter (fun ts => later - ts < 3600)) := by
  have main : ∀ (s0 : Instinct),
      (should_proceed s action platform now).2.2 = s0 →
      s0.api_calls_today = s.api_calls_today →
      s0.money_spent_today = s.money_spent_today →
      s0.failed_logins = s.failed_logins →
      (∀ k, s0.action_timestamps k = s.action_timestamps k ∨
        s0.action_timestamps k =
          (s.action_timestamps k).filter (fun ts => now - ts < 3600)) →
      ((should_proceed s action platform now).2.2.api_calls_today = s.api_calls_today)
      ∧ ((should_proceed s action platform now).2.2.money_spent_today = s.money_spent_today)
      ∧ ((should_proceed s action platform now).2.2.failed_logins = s.failed_logins)
      ∧ (∀ k, List.Sublist ((should_proceed s action platform now).2.2.action_timestamps k)
          (s.action_timestamps k))
      ∧ (∀ k later, now ≤ later →
          ((should_proceed s action platform now).2.2.action_timestamps k).filter
              (fun ts => later - ts < 3600) =
            (s.action_timestamps k).filter (fun ts => later - ts < 3600)) := by
    intro s0 heq h1 h2 h3 h4
    rw [heq]
    refine ⟨h1, h2, h3, ?_, ?_⟩
    · intro k
      rcases h4 k with h | h
      · rw [h]
      · rw [h]
        exact List.filter_sublist _
    · intro k later hle
      rcases h4 k with h | h
      · rw [h]
      · rw [h, filter_window_mono _ _ _ hle]
  cases platform with
  | none =>
    have h := sp_checks_state s action none now
    have hd : (sp_checks s action none now).1 = false := hdeny
    exact main _ rfl h.1 h.2.1 h.2.2.1 (h.2.2.2.2 hd)
  | some p =>
    by_cases hp : p = ""
    · subst hp
      have h := sp_checks_state s action (some "") now
      have hd : (sp_checks s action (some "") now).1 = false := by
        simpa [should_proceed] using hdeny
      exact main _ (by simp [should_proceed]) h.1 h.2.1 h.2.2.1 (h.2.2.2.2 hd)
    · cases hbp : s.blocked_platforms p with
      | none =>
        have h := sp_checks_state s action (some p) now
        have hd : (sp_checks s action (some p) now).1 = false := by
          simpa [should_proceed, hp, hbp] using hdeny
        exact main _ (by simp [should_proceed, hp, hbp]) h.1 h.2.1 h.2.2.1 (h.2.2.2.2 hd)
      | some u =>
        by_cases hu : now < u
        · exact main s (by simp [should_proceed, hp, hbp, hu]) rfl rfl rfl
            (fun k => Or.inl rfl)
        · have h := sp_checks_state (erase_block s p) action (some p) now
          have hd : (sp_checks (erase_block s p) action (some p) now).1 = false := by
            simpa [should_proceed, hp, hbp, hu] using hdeny
          have h5 := h.2.2.2.2 hd
          exact main _ (by simp [should_proceed, hp, hbp, hu]) h.1 h.2.1 h.2.2.1 h5

/-- Witness for C10 at a state whose spending budget is exhausted. -/
theorem should_proceed_denied_frame_witness :
    (let sDeny : Instinct := { Instinct.init with money_spent_today := 60 }
     (should_proceed sDeny "post" none 0).2.2.api_calls_today = sDeny.api_calls_today ∧
     (should_proceed sDeny "post" none 0).2.2.money_spent_today = sDeny.money_spent_today) :=
  have h := should_proceed_denied_frame
    { Instinct.init with money_spent_today := 60 } "post" none 0 (by decide)
  ⟨h.1, h.2.1⟩

/-- Witness for C1's amended theorem: the denying state and handler of
the counterexample. -/
theorem execute_task_ignores_governor_witness :
    (let handlers := fun ty =>
       if ty = "email" then some (fun _ : Planner.Task => Planner.HandlerOutcome.ok true)
       else none
     let t := Planner.Task.mk0 "check_emails" "email" "check_inbox" Planner.TaskPriority.HIGH
     (Planner.execute_task handlers t).result = true ∧
     (Planner.execute_task handlers t).requeued = [] ∧
     (Planner.execute_task handlers t).task.status = "completed") :=
  execute_task_ignores_governor
    { Instinct.init with api_calls_today := 1000 } "check_inbox" none 0 (by decide)
    _ _ _ rfl rfl


/-! ### Verification of the heapq embedding (for C3 and C6) -/

namespace Planner

/-- The parent index is strictly below any non-root index. -/
theorem par_lt {j : Nat} (h : 0 < j) : par j < j := by
  simp only [par]; omega

/-- The children of `p` are exactly `2p+1` and `2p+2`. -/
theorem child_cases {p j : Nat} (h0 : 0 < j) (h : par j = p) :
    j = 2 * p + 1 ∨ j = 2 * p + 2 := by
  simp only [par] at h; omega

/-- Left child's parent. -/
theorem par_child_left (p : Nat) : par (2 * p + 1) = p := by
  simp only [par]; omega

/-- Right child's parent. -/
theorem par_child_right (p : Nat) : par (2 * p + 2) = p := by
  simp only [par]; omega

/-- `idx` agrees with safe indexing in range. -/
theorem idx_eq_getElem {a : List Task} {i : Nat} (h : i < a.length) :
    idx a i = a[i] :=
  List.getD_eq_getElem a default h

/-- Reading back a just-written cell. -/
theorem idx_set_self {a : List Task} {i : Nat} {x : Task} (h : i < a.length) :
    idx (a.set i x) i = x := by
  rw [idx_eq_getElem (by simpa using h), List.getElem_set]
  simp

/-- Writing one cell leaves the others unchanged. -/
theorem idx_set_ne (a : List Task) (x : Task) {i j : Nat} (h : i ≠ j) :
    idx (a.set i x) j = idx a j := by
  simp [idx, List.getD_eq_getElem?_getD, List.getElem?_set_ne h]

/-- Prefix indexing through an append. -/
theorem idx_append_lt {l r : List Task} {i : Nat} (h : i < l.length) :
    idx (l ++ r) i = idx l i := by
  simp [idx, List.getD_eq_getElem?_getD, List.getElem?_append_left h]

/-- The appended element of a push. -/
theorem idx_append_len (l : List Task) (x : Task) : idx (l ++ [x]) l.length = x := by
  rw [idx_eq_getElem (by simp)]
  exact List.getElem_concat_length l x l.length rfl _

/-- Indexing through `dropLast`. -/
theorem idx_dropLast {l : List Task} {i : Nat} (h : i < l.dropLast.length) :
    idx l.dropLast i = idx l i := by
  rw [idx_eq_getElem h, List.getElem_dropLast]
  rw [idx_eq_getElem]

/-- Writing back the value already present changes nothing. -/
theorem set_idx_self (a : List Task) {i : Nat} (h : i < a.length) :
    a.set i (idx a i) = a := by
  rw [idx_eq_getElem h]
  apply List.ext_getElem?
  intro n
  rw [List.getElem?_set]
  split
  · rename_i hin
    subst hin
    simp [List.getElem?_eq_getElem h]
  · rfl

/-- `siftdownLoop` preserves the length. -/
theorem length_siftdownLoop :
    ∀ fuel (a : List Task) sp ni pos, (siftdownLoop fuel a sp ni pos).length = a.length := by
  intro fuel
  induction fuel with
  | zero => intro a sp ni pos; simp [siftdownLoop]
  | succ fuel ih =>
    intro a sp ni pos
    simp only [siftdownLoop]
    split
    · split
      · rw [ih]; simp
      · simp
    · simp

/-- `siftdown` preserves the length. -/
theorem length_siftdown (a : List Task) (sp pos : Nat) :
    (siftdown a sp pos).length = a.length := by
  simp [siftdown, length_siftdownLoop]

/-- `siftupLoop` preserves the length. -/
theorem length_siftupLoop :
    ∀ fuel (a : List Task) sp ep ni pos,
      (siftupLoop fuel a sp ep ni pos).length = a.length := by
  intro fuel
  induction fuel with
  | zero => intro a sp ep ni pos; simp [siftupLoop, length_siftdown]
  | succ fuel ih =>
    intro a sp ep ni pos
    simp only [siftupLoop]
    split
    · rw [ih]; simp
    · simp [length_siftdown]

/-- `siftup` preserves the length. -/
theorem length_siftup (a : List Task) (pos : Nat) :
    (siftup a pos).length = a.length := by
  simp [siftup, length_siftupLoop]

/-- Placing the held item at the hole yields a heap, provided the
hole's children dominate the item and (when the hole is not the root)
the hole's parent is dominated by it. -/
theorem set_stop_isHeap (a : List Task) (ni : Task) (pos : Nat)
    (hlen : pos < a.length)
    (hA : heapExceptAt a pos) (hB : childrenGe a pos ni)
    (hpar : 0 < pos → pri (idx a (par pos)) ≤ pri ni) :
    IsHeap (a.set pos ni) := by
  intro j hj0 hjlen
  rw [List.length_set] at hjlen
  by_cases hj : j = pos
  · subst hj
    have hne : j ≠ par j := (Nat.ne_of_lt (par_lt hj0)).symm
    rw [idx_set_ne _ _ hne, idx_set_self hlen]
    exact hpar hj0
  · by_cases hpj : par j = pos
    · rw [hpj, idx_set_self hlen, idx_set_ne _ _ (fun hh => hj hh.symm)]
      exact hB j hj0 hjlen hpj
    · rw [idx_set_ne _ _ (fun hh => hpj hh.symm), idx_set_ne _ _ (fun hh => hj hh.symm)]
      exact hA j hj0 hjlen hj hpj

/-- In a heap the root has minimal priority value. -/
theorem root_min (q : List Task) (hq : IsHeap q) :
    ∀ j, j < q.length → pri (idx q 0) ≤ pri (idx q j) := by
  intro j
  induction j using Nat.strong_induction_on with
  | _ j ih =>
    intro hj
    by_cases hj0 : 0 < j
    · exact Nat.le_trans (ih (par j) (par_lt hj0) (Nat.lt_trans (par_lt hj0) hj))
        (hq j hj0 hj)
    · have hz : j = 0 := by omega
      subst hz
      exact Nat.le_refl _

end Planner

namespace Planner

/-- Correctness of the `_siftdown` loop (`startpos = 0`): under the
three loop invariants, placing the held item yields a heap. -/
theorem siftdownLoop_isHeap :
    ∀ fuel (a : List Task) (ni : Task) (pos : Nat), pos < a.length → pos ≤ fuel →
      heapExceptAt a pos → childrenGe a pos ni → childrenGeParPos a pos →
      IsHeap (siftdownLoop fuel a 0 ni pos) := by
  intro fuel
  induction fuel with
  | zero =>
    intro a ni pos hlen hfuel hA hB hC
    have hz : pos = 0 := Nat.le_zero.mp hfuel
    subst hz
    show IsHeap (a.set 0 ni)
    exact set_stop_isHeap a ni 0 hlen hA hB (fun h0 => absurd h0 (by omega))
  | succ fuel ih =>
    intro a ni pos hlen hfuel hA hB hC
    by_cases hpos : 0 < pos
    · have hplt : par pos < pos := par_lt hpos
      by_cases hlt : Task.lt ni (idx a (par pos)) = true
      · have hred : siftdownLoop (fuel + 1) a 0 ni pos =
            siftdownLoop fuel (a.set pos (idx a (par pos))) 0 ni (par pos) := by
          simp only [siftdownLoop]
          rw [if_pos hpos, if_pos hlt]
        rw [hred]
        have hlt' : pri ni < pri (idx a (par pos)) := by
          simpa [Task.lt] using hlt
        have hplen : par pos < (a.set pos (idx a (par pos))).length := by
          rw [List.length_set]; omega
        apply ih _ ni (par pos) hplen (by omega)
        · intro j hj0 hjlen hne1 hne2
          rw [List.length_set] at hjlen
          by_cases hj : j = pos
          · exact absurd (by rw [hj]) hne2
          · by_cases hpj : par j = pos
            · rw [hpj, idx_set_self hlen, idx_set_ne _ _ (fun hh => hj hh.symm)]
              exact hC hpos j hj0 hjlen hpj
            · rw [idx_set_ne _ _ (fun hh => hpj hh.symm),
                idx_set_ne _ _ (fun hh => hj hh.symm)]
              exact hA j hj0 hjlen hj hpj
        · intro j hj0 hjlen hpj
          rw [List.length_set] at hjlen
          by_cases hj : j = pos
          · rw [hj, idx_set_self hlen]
            exact Nat.le_of_lt hlt'
          · rw [idx_set_ne _ _ (fun hh => hj hh.symm)]
            have hpjne : par j ≠ pos := by rw [hpj]; exact Nat.ne_of_lt hplt
            have h5 := hA j hj0 hjlen hj hpjne
            rw [hpj] at h5
            exact Nat.le_trans (Nat.le_of_lt hlt') h5
        · intro hq j hj0 hjlen hpj
          rw [List.length_set] at hjlen
          have hpplt : par (par pos) < par pos := par_lt hq
          have hppne : par (par pos) ≠ pos := by omega
          have hplen2 : par pos < a.length := by omega
          have hstep := hA (par pos) hq hplen2 (Nat.ne_of_lt hplt) hppne
          rw [idx_set_ne _ _ (fun hh => hppne hh.symm)]
          by_cases hj : j = pos
          · rw [hj, idx_set_self hlen]
            exact hstep
          · rw [idx_set_ne _ _ (fun hh => hj hh.symm)]
            have hpjne : par j ≠ pos := by rw [hpj]; exact Nat.ne_of_lt hplt
            have h2 := hA j hj0 hjlen hj hpjne
            rw [hpj] at h2
            exact Nat.le_trans hstep h2
      · have hred : siftdownLoop (fuel + 1) a 0 ni pos = a.set pos ni := by
          simp only [siftdownLoop]
          rw [if_pos hpos, if_neg hlt]
        rw [hred]
        apply set_stop_isHeap a ni pos hlen hA hB
        intro h0
        have hnlt : ¬ pri ni < pri (idx a (par pos)) := by
          simpa [Task.lt] using hlt
        omega
    · have hz : pos = 0 := by omega
      subst hz
      have hred : siftdownLoop (fuel + 1) a 0 ni 0 = a.set 0 ni := by
        simp only [siftdownLoop]
        rw [if_neg (by omega)]
      rw [hred]
      exact set_stop_isHeap a ni 0 hlen hA hB (fun h0 => absurd h0 (by omega))

end Planner

namespace Planner

/-- Exiting the `_siftup` descent at a leaf: writing the held item and
bubbling it up restores the heap. -/
theorem siftdown_leaf_isHeap (a : List Task) (ni : Task) (pos : Nat)
    (hlen : pos < a.length) (hleaf : a.length ≤ 2 * pos + 1)
    (hA : heapExceptAt a pos) :
    IsHeap (siftdown (a.set pos ni) 0 pos) := by
  have hlen2 : pos < (a.set pos ni).length := by simpa using hlen
  rw [siftdown, idx_set_self hlen]
  apply siftdownLoop_isHeap pos _ ni pos hlen2 (Nat.le_refl pos)
  · intro j hj0 hjlen hne1 hne2
    rw [List.length_set] at hjlen
    rw [idx_set_ne _ _ (fun hh => hne2 hh.symm), idx_set_ne _ _ (fun hh => hne1 hh.symm)]
    exact hA j hj0 hjlen hne1 hne2
  · intro j hj0 hjlen hpj
    rw [List.length_set] at hjlen
    rcases child_cases hj0 hpj with rfl | rfl <;> omega
  · intro hq j hj0 hjlen hpj
    rw [List.length_set] at hjlen
    rcases child_cases hj0 hpj with rfl | rfl <;> omega

/-- Correctness of the `_siftup` descent loop (`startpos = 0`,
`endpos = len`): following the smaller child down to a leaf, then
placing and bubbling the held item, restores the heap. -/
theorem siftupLoop_isHeap :
    ∀ fuel (a : List Task) (ni : Task) (pos : Nat), pos < a.length →
      a.length ≤ fuel + pos + 1 →
      heapExceptAt a pos → childrenGeParPos a pos →
      IsHeap (siftupLoop fuel a 0 a.length ni pos) := by
  intro fuel
  induction fuel with
  | zero =>
    intro a ni pos hlen hfuel hA hC
    show IsHeap (siftdown (a.set pos ni) 0 pos)
    exact siftdown_leaf_isHeap a ni pos hlen (by omega) hA
  | succ fuel ih =>
    intro a ni pos hlen hfuel hA hC
    by_cases hchild : 2 * pos + 1 < a.length
    · have key : ∀ cp, par cp = pos → pos < cp → cp < a.length →
          (∀ s, 0 < s → s < a.length → par s = pos → s ≠ cp →
            pri (idx a cp) ≤ pri (idx a s)) →
          IsHeap (siftupLoop fuel (a.set pos (idx a cp)) 0 a.length ni cp) := by
        intro cp hpcp hcpgt hcplen hmin
        have hcp0 : 0 < cp := by omega
        have hlen2 : cp < (a.set pos (idx a cp)).length := by simpa using hcplen
        have hlen3 : (a.set pos (idx a cp)).length ≤ fuel + cp + 1 := by
          rw [List.length_set]
          omega
        have hres := ih (a.set pos (idx a cp)) ni cp hlen2 hlen3 ?hA2 ?hC2
        case hA2 =>
          intro j hj0 hjlen hne1 hne2
          rw [List.length_set] at hjlen
          by_cases hj : j = pos
          · rw [hj, idx_set_self hlen]
            have hppos : 0 < pos := by
              rw [hj] at hj0; exact hj0
            have hpne : par pos ≠ pos := Nat.ne_of_lt (par_lt hppos)
            rw [idx_set_ne _ _ (fun hh => hpne (by omega))]
            exact hC hppos cp hcp0 hcplen hpcp
          · by_cases hpj : par j = pos
            · rw [hpj, idx_set_self hlen, idx_set_ne _ _ (fun hh => hj hh.symm)]
              exact hmin j hj0 hjlen hpj hne1
            · rw [idx_set_ne _ _ (fun hh => hpj hh.symm),
                idx_set_ne _ _ (fun hh => hj hh.symm)]
              exact hA j hj0 hjlen hj hpj
        case hC2 =>
          intro hq j hj0 hjlen hpj
          rw [List.length_set] at hjlen
          have hjgt : cp < j := by
            have := par_lt hj0
            omega
          have hjne : j ≠ pos := by omega
          rw [hpcp, idx_set_self hlen, idx_set_ne _ _ (fun hh => hjne hh.symm)]
          have hpjne : par j ≠ pos := by
            rw [hpj]; omega
          have h2 := hA j hj0 hjlen hjne hpjne
          rw [hpj] at h2
          exact h2
        rw [List.length_set] at hres
        exact hres
      have hR : 2 * pos + 1 + 1 = 2 * pos + 2 := rfl
      by_cases hcond : (decide (2 * pos + 1 + 1 < a.length) &&
          !(Task.lt (idx a (2 * pos + 1)) (idx a (2 * pos + 1 + 1)))) = true
      · have hred : siftupLoop (fuel + 1) a 0 a.length ni pos =
            siftupLoop fuel (a.set pos (idx a (2 * pos + 1 + 1))) 0 a.length ni
              (2 * pos + 1 + 1) := by
          simp only [siftupLoop]
          rw [if_pos hchild, if_pos hcond]
        rw [hred]
        have hr1 : 2 * pos + 2 < a.length := by
          rcases Bool.and_eq_true_iff.mp hcond with ⟨h1, -⟩
          simpa using h1
        have hr2 : ¬ pri (idx a (2 * pos + 1)) < pri (idx a (2 * pos + 2)) := by
          rcases Bool.and_eq_true_iff.mp hcond with ⟨-, h2⟩
          rw [hR] at h2
          simpa [Task.lt] using h2
        rw [hR]
        apply key (2 * pos + 2) (par_child_right pos) (by omega) hr1
        intro s hs0 hslen hps hsne
        rcases child_cases hs0 hps with rfl | rfl
        · omega
        · exact absurd rfl hsne
      · have hred : siftupLoop (fuel + 1) a 0 a.length ni pos =
            siftupLoop fuel (a.set pos (idx a (2 * pos + 1))) 0 a.length ni
              (2 * pos + 1) := by
          simp only [siftupLoop]
          rw [if_pos hchild, if_neg hcond]
        rw [hred]
        apply key (2 * pos + 1) (par_child_left pos) (by omega) hchild
        intro s hs0 hslen hps hsne
        rcases child_cases hs0 hps with rfl | rfl
        · exact absurd rfl hsne
        · have hr1 : 2 * pos + 2 < a.length := hslen
          have hlt : Task.lt (idx a (2 * pos + 1)) (idx a (2 * pos + 1 + 1)) = true := by
            cases hv : Task.lt (idx a (2 * pos + 1)) (idx a (2 * pos + 1 + 1)) with
            | true => rfl
            | false =>
              exact absurd (by simp [hv, hR, hr1]) hcond
          exact Nat.le_of_lt (by simpa [Task.lt] using hlt)
    · have hred : siftupLoop (fuel + 1) a 0 a.length ni pos =
          siftdown (a.set pos ni) 0 pos := by
        simp only [siftupLoop]
        rw [if_neg hchild]
      rw [hred]
      exact siftdown_leaf_isHeap a ni pos hlen (by omega) hA

end Planner

namespace Planner

/-- `heappush` preserves the heap invariant. -/
theorem heappush_isHeap (a : List Task) (x : Task) (h : IsHeap a) :
    IsHeap (heappush a x) := by
  rw [heappush, siftdown, idx_append_len]
  apply siftdownLoop_isHeap a.length (a ++ [x]) x a.length (by simp) (Nat.le_refl _)
  · intro j hj0 hjlen hne1 hne2
    rw [List.length_append] at hjlen
    have hjlt : j < a.length := by
      simp only [List.length_singleton] at hjlen
      omega
    have hplt : par j < a.length := Nat.lt_trans (par_lt hj0) hjlt
    rw [idx_append_lt hplt, idx_append_lt hjlt]
    exact h j hj0 hjlt
  · intro j hj0 hjlen hpj
    rw [List.length_append, List.length_singleton] at hjlen
    rcases child_cases hj0 hpj with rfl | rfl <;> omega
  · intro hq j hj0 hjlen hpj
    rw [List.length_append, List.length_singleton] at hjlen
    rcases child_cases hj0 hpj with rfl | rfl <;> omega

/-- `heappop` yields `none` exactly on the empty heap. -/
theorem heappop_eq_none {q : List Task} : heappop q = none ↔ q = [] := by
  cases q with
  | nil => simp [heappop]
  | cons x xs =>
    simp only [heappop]
    cases hrest : (x :: xs).dropLast <;> simp

/-- Unfolding equation of `heappop` when only one element remains. -/
theorem heappop_cons_nil (x : Task) (xs : List Task)
    (h : (x :: xs).dropLast = []) :
    heappop (x :: xs) = some ((x :: xs).getLastD default, []) := by
  simp only [heappop, h]

/-- Unfolding equation of `heappop` when at least two elements remain. -/
theorem heappop_cons_cons (x : Task) (xs : List Task) (r : Task) (rs : List Task)
    (h : (x :: xs).dropLast = r :: rs) :
    heappop (x :: xs) = some (idx (r :: rs) 0,
      siftup ((r :: rs).set 0 ((x :: xs).getLastD default)) 0) := by
  simp only [heappop, h]

/-- A singleton heap: `dropLast` is empty exactly when the tail is. -/
theorem dropLast_cons_nil {x : Task} {xs : List Task}
    (h : (x :: xs).dropLast = []) : xs = [] := by
  have hl := List.length_dropLast (x :: xs)
  rw [h] at hl
  simp only [List.length_nil, List.length_cons] at hl
  exact List.length_eq_zero.mp (by omega)

/-- A non-empty heap splits as its `dropLast` plus its last element. -/
theorem dropLast_append_getLastD (q : List Task) (h : q ≠ []) :
    q.dropLast ++ [q.getLastD default] = q := by
  rw [List.getLastD_eq_getLast?, List.getLast?_eq_getLast q h]
  exact List.dropLast_append_getLast h

/-- `heappop` shortens the heap by exactly one. -/
theorem heappop_length {q : List Task} {t : Task} {q' : List Task}
    (h : heappop q = some (t, q')) : q'.length + 1 = q.length := by
  cases q with
  | nil => simp [heappop] at h
  | cons x xs =>
    cases hrest : (x :: xs).dropLast with
    | nil =>
      rw [heappop_cons_nil x xs hrest] at h
      simp only [Option.some.injEq, Prod.mk.injEq] at h
      have hxs := dropLast_cons_nil hrest
      subst hxs
      rw [← h.2]
      rfl
    | cons r rs =>
      rw [heappop_cons_cons x xs r rs hrest] at h
      simp only [Option.some.injEq, Prod.mk.injEq] at h
      have hlen := List.length_dropLast (x :: xs)
      rw [hrest] at hlen
      rw [← h.2, length_siftup, List.length_set, hlen]
      simp

/-- `heappop` preserves the heap invariant. -/
theorem heappop_isHeap {q : List Task} {t : Task} {q' : List Task}
    (hq : IsHeap q) (h : heappop q = some (t, q')) : IsHeap q' := by
  cases q with
  | nil => simp [heappop] at h
  | cons x xs =>
    cases hrest : (x :: xs).dropLast with
    | nil =>
      rw [heappop_cons_nil x xs hrest] at h
      simp only [Option.some.injEq, Prod.mk.injEq] at h
      rw [← h.2]
      intro j hj0 hjlen
      simp at hjlen
    | cons r rs =>
      rw [heappop_cons_cons x xs r rs hrest] at h
      simp only [Option.some.injEq, Prod.mk.injEq] at h
      rw [← h.2]
      set last := (x :: xs).getLastD default with hlast
      have hrlen : 0 < (r :: rs).length := by simp
      have hset : 0 < ((r :: rs).set 0 last).length := by simpa using hrlen
      rw [siftup, idx_set_self hrlen]
      have hdrop : (x :: xs).dropLast.length < (x :: xs).length := by
        rw [List.length_dropLast]
        simp
      apply siftupLoop_isHeap _ _ last 0 hset (by omega)
      · intro j hj0 hjlen hne1 hne2
        rw [List.length_set] at hjlen
        rw [idx_set_ne _ _ (fun hh => hne2 hh.symm), idx_set_ne _ _ (fun hh => hne1 hh.symm)]
        have hjq : j < (x :: xs).length := by
          have := hrest ▸ List.length_dropLast (x :: xs)
          omega
        have hpq : par j < (x :: xs).length := Nat.lt_trans (par_lt hj0) hjq
        have hjd : j < (x :: xs).dropLast.length := by rw [hrest]; exact hjlen
        have hpd : par j < (x :: xs).dropLast.length :=
          Nat.lt_trans (par_lt hj0) hjd
        rw [← hrest, idx_dropLast hjd, idx_dropLast hpd]
        exact hq j hj0 hjq
      · intro h0
        exact absurd h0 (by omega)

/-- What `heappop` returns on a non-empty heap is the root. -/
theorem heappop_fst {q : List Task} {t : Task} {q' : List Task}
    (h : heappop q = some (t, q')) : t = idx q 0 := by
  cases q with
  | nil => simp [heappop] at h
  | cons x xs =>
    cases hrest : (x :: xs).dropLast with
    | nil =>
      rw [heappop_cons_nil x xs hrest] at h
      simp only [Option.some.injEq, Prod.mk.injEq] at h
      have hxs := dropLast_cons_nil hrest
      subst hxs
      rw [← h.1]
      rfl
    | cons r rs =>
      rw [heappop_cons_cons x xs r rs hrest] at h
      simp only [Option.some.injEq, Prod.mk.injEq] at h
      have h0 : 0 < (x :: xs).dropLast.length := by rw [hrest]; simp
      rw [← h.1, ← hrest, idx_dropLast h0]

/-- C3's surviving half, at heap level: the task `heappop` returns has
minimal priority value in the heap. -/
theorem heappop_min {q : List Task} {t : Task} {q' : List Task}
    (hq : IsHeap q) (h : heappop q = some (t, q')) :
    ∀ u ∈ q, pri t ≤ pri u := by
  intro u hu
  rcases List.mem_iff_getElem.mp hu with ⟨j, hj, rfl⟩
  rw [heappop_fst h, ← idx_eq_getElem hj]
  exact root_min q hq j hj

end Planner

namespace Planner

/-- Effect of one store on the heap contents, as multisets. -/
theorem mset_set (a : List Task) (i : Nat) (x : Task) (h : i < a.length) :
    ((a.set i x : List Task) : Multiset Task) + {idx a i} =
      (a : Multiset Task) + {x} := by
  induction a generalizing i with
  | nil => simp at h
  | cons y ys ih =>
    cases i with
    | zero =>
      show ((x :: ys : List Task) : Multiset Task) + {y} = _
      rw [add_comm, add_comm (((y :: ys : List Task) : Multiset Task)) {x}]
      rw [Multiset.singleton_add, Multiset.singleton_add, ← Multiset.cons_coe,
        ← Multiset.cons_coe]
      exact Multiset.cons_swap y x ↑ys
    | succ i =>
      have hi : i < ys.length := by simpa using h
      show ((y :: ys.set i x : List Task) : Multiset Task) + {idx ys i} = _
      rw [← Multiset.cons_coe, ← Multiset.cons_coe, Multiset.cons_add,
        Multiset.cons_add, ih i hi]

/-- The `_siftdown` loop permutes nothing: its result holds exactly the
cells of the input with the held item written at the hole. -/
theorem siftdownLoop_mset :
    ∀ fuel (a : List Task) sp (ni : Task) (pos : Nat), pos < a.length →
      ((siftdownLoop fuel a sp ni pos : List Task) : Multiset Task) =
        ((a.set pos ni : List Task) : Multiset Task) := by
  intro fuel
  induction fuel with
  | zero => intro a sp ni pos hlen; rfl
  | succ fuel ih =>
    intro a sp ni pos hlen
    simp only [siftdownLoop]
    by_cases h1 : sp < pos
    · rw [if_pos h1]
      by_cases h2 : Task.lt ni (idx a (par pos)) = true
      · rw [if_pos h2]
        have hpos : 0 < pos := by omega
        have hplt : par pos < pos := par_lt hpos
        have hplen : par pos < (a.set pos (idx a (par pos))).length := by
          rw [List.length_set]; omega
        rw [ih _ sp ni (par pos) hplen]
        have hne : pos ≠ par pos := Nat.ne_of_lt hplt |>.symm
        have e1 := mset_set (a.set pos (idx a (par pos))) (par pos) ni hplen
        rw [idx_set_ne _ _ hne] at e1
        have e2 := mset_set a pos (idx a (par pos)) hlen
        have e3 := mset_set a pos ni hlen
        have main :
            (((a.set pos (idx a (par pos))).set (par pos) ni : List Task) :
                Multiset Task) + {idx a (par pos)} + {idx a pos} =
            ((a.set pos ni : List Task) : Multiset Task) +
                {idx a (par pos)} + {idx a pos} := by
          calc ((((a.set pos (idx a (par pos))).set (par pos) ni : List Task) :
                Multiset Task)) + {idx a (par pos)} + {idx a pos}
              = ((a.set pos (idx a (par pos)) : List Task) : Multiset Task) +
                {ni} + {idx a pos} := by rw [e1]
            _ = ((a.set pos (idx a (par pos)) : List Task) : Multiset Task) +
                {idx a pos} + {ni} := by abel
            _ = ((a : List Task) : Multiset Task) + {idx a (par pos)} + {ni} := by
                rw [e2]
            _ = ((a : List Task) : Multiset Task) + {ni} + {idx a (par pos)} := by abel
            _ = ((a.set pos ni : List Task) : Multiset Task) + {idx a pos} +
                {idx a (par pos)} := by rw [← e3]
            _ = ((a.set pos ni : List Task) : Multiset Task) + {idx a (par pos)} +
                {idx a pos} := by abel
        exact add_right_cancel (add_right_cancel main)
      · rw [if_neg h2]
    · rw [if_neg h1]

/-- `_siftdown` permutes nothing. -/
theorem siftdown_mset (a : List Task) (sp pos : Nat) (h : pos < a.length) :
    ((siftdown a sp pos : List Task) : Multiset Task) = (a : Multiset Task) := by
  rw [siftdown, siftdownLoop_mset _ _ _ _ _ h, set_idx_self a h]

/-- The `_siftup` loop permutes nothing either. -/
theorem siftupLoop_mset :
    ∀ fuel (a : List Task) sp ep (ni : Task) (pos : Nat), pos < a.length →
      ep ≤ a.length →
      ((siftupLoop fuel a sp ep ni pos : List Task) : Multiset Task) =
        ((a.set pos ni : List Task) : Multiset Task) := by
  intro fuel
  induction fuel with
  | zero =>
    intro a sp ep ni pos hlen hep
    show ((siftdown (a.set pos ni) sp pos : List Task) : Multiset Task) = _
    rw [siftdown_mset _ _ _ (by simpa using hlen)]
  | succ fuel ih =>
    intro a sp ep ni pos hlen hep
    simp only [siftupLoop]
    by_cases h1 : 2 * pos + 1 < ep
    · rw [if_pos h1]
      set cp := if (decide (2 * pos + 1 + 1 < ep) &&
          !(Task.lt (idx a (2 * pos + 1)) (idx a (2 * pos + 1 + 1)))) = true
        then 2 * pos + 1 + 1 else 2 * pos + 1 with hcp
      have hcpb : 2 * pos + 1 ≤ cp ∧ cp ≤ 2 * pos + 2 := by
        rw [hcp]
        split <;> omega
      have hcplen : cp < a.length := by
        rcases hcpb with ⟨hb1, hb2⟩
        by_cases hc : cp = 2 * pos + 1
        · omega
        · have : cp = 2 * pos + 2 := by omega
          rw [this]
          have : (decide (2 * pos + 1 + 1 < ep) &&
              !(Task.lt (idx a (2 * pos + 1)) (idx a (2 * pos + 1 + 1)))) = true := by
            by_contra hcon
            rw [hcp] at hc
            rw [if_neg hcon] at hc
            exact hc rfl
          rcases Bool.and_eq_true_iff.mp this with ⟨hd, -⟩
          have := of_decide_eq_true hd
          omega
      have hne : pos ≠ cp := by omega
      have hlen2 : cp < (a.set pos (idx a cp)).length := by simpa using hcplen
      rw [ih _ sp ep ni cp hlen2 (by simpa using hep)]
      have e1 := mset_set (a.set pos (idx a cp)) cp ni hlen2
      rw [idx_set_ne _ _ hne] at e1
      have e2 := mset_set a pos (idx a cp) hlen
      have e3 := mset_set a pos ni hlen
      have main :
          (((a.set pos (idx a cp)).set cp ni : List Task) : Multiset Task) +
              {idx a cp} + {idx a pos} =
          ((a.set pos ni : List Task) : Multiset Task) + {idx a cp} + {idx a pos} := by
        calc (((a.set pos (idx a cp)).set cp ni : List Task) : Multiset Task) +
              {idx a cp} + {idx a pos}
            = ((a.set pos (idx a cp) : List Task) : Multiset Task) + {ni} +
              {idx a pos} := by rw [e1]
          _ = ((a.set pos (idx a cp) : List Task) : Multiset Task) + {idx a pos} +
              {ni} := by abel
          _ = ((a : List Task) : Multiset Task) + {idx a cp} + {ni} := by rw [e2]
          _ = ((a : List Task) : Multiset Task) + {ni} + {idx a cp} := by abel
          _ = ((a.set pos ni : List Task) : Multiset Task) + {idx a pos} +
              {idx a cp} := by rw [← e3]
          _ = ((a.set pos ni : List Task) : Multiset Task) + {idx a cp} +
              {idx a pos} := by abel
      exact add_right_cancel (add_right_cancel main)
    · rw [if_neg h1]
      rw [siftdown_mset _ _ _ (by simpa using hlen)]

/-- `heappop` removes exactly the returned task from the heap. -/
theorem heappop_mset {q : List Task} {t : Task} {q' : List Task}
    (h : heappop q = some (t, q')) :
    (q : Multiset Task) = t ::ₘ (q' : Multiset Task) := by
  cases q with
  | nil => simp [heappop] at h
  | cons x xs =>
    cases hrest : (x :: xs).dropLast with
    | nil =>
      rw [heappop_cons_nil x xs hrest] at h
      simp only [Option.some.injEq, Prod.mk.injEq] at h
      have hxs := dropLast_cons_nil hrest
      subst hxs
      rw [← h.1, ← h.2]
      rfl
    | cons r rs =>
      rw [heappop_cons_cons x xs r rs hrest] at h
      simp only [Option.some.injEq, Prod.mk.injEq] at h
      have hsplit := dropLast_append_getLastD (x :: xs) (by simp)
      rw [hrest] at hsplit
      set last := (x :: xs).getLastD default with hlast
      have hrlen : 0 < (r :: rs).length := by simp
      have hq' : ((q' : List Task) : Multiset Task) =
          (((r :: rs).set 0 last : List Task) : Multiset Task) := by
        rw [← h.2, siftup, idx_set_self hrlen]
        rw [siftupLoop_mset _ _ _ _ _ _ (by simpa using hrlen) (by simp)]
        rw [List.set_set]
      have e1 := mset_set (r :: rs) 0 last hrlen
      have hidx : idx (r :: rs) 0 = r := rfl
      rw [hidx] at e1
      have hcoe : ((x :: xs : List Task) : Multiset Task) =
          (((r :: rs) ++ [last] : List Task) : Multiset Task) := by
        rw [hsplit]
      rw [hcoe, ← Multiset.coe_add, ← h.1, hidx]
      rw [hq', ← Multiset.singleton_add]
      have hsing : (([last] : List Task) : Multiset Task) = ({last} : Multiset Task) := rfl
      rw [hsing, add_comm ({r} : Multiset Task) _]
      exact e1.symm

end Planner

/-- Every queue reachable by pushes and pops from empty satisfies the
binary-heap invariant. -/
theorem runQueue_isHeap (ops : List QOp) : Planner.IsHeap (runQueue ops) := by
  have main : ∀ (l : List QOp) (q : List Planner.Task), Planner.IsHeap q →
      Planner.IsHeap (l.foldl qstep q) := by
    intro l
    induction l with
    | nil => intro q hq; exact hq
    | cons op l ih =>
      intro q hq
      apply ih
      cases op with
      | push t => exact Planner.heappush_isHeap q t hq
      | pop =>
        show Planner.IsHeap (match Planner.heappop q with
          | none => q
          | some r => r.2)
        cases hpop : Planner.heappop q with
        | none => exact hq
        | some r => exact Planner.heappop_isHeap hq (by rw [hpop])
  exact main ops [] (by intro j hj0 hjlen; simp at hjlen)

/-- C3 counterexample: push A then B (equal priority HIGH) then C
(priority CRITICAL).  The first pop returns C, but the second pop
returns B - inserted AFTER the equal-priority A, which is still queued -
so pops do not preserve insertion order among equal priorities and no
insertion-sequence tie-break exists (`Task.__lt__` compares the priority
value alone). -/
theorem heap_fifo_counterexample :
    (let qA := Planner.Task.mk0 "A" "social" "post" Planner.TaskPriority.HIGH
     let qB := Planner.Task.mk0 "B" "social" "post" Planner.TaskPriority.HIGH
     let qC := Planner.Task.mk0 "C" "email" "check" Planner.TaskPriority.CRITICAL
     let q3 := runQueue [QOp.push qA, QOp.push qB, QOp.push qC]
     Planner.pri qA = Planner.pri qB ∧
     Planner.heappop q3 = some (qC, [qB, qA]) ∧
     Planner.heappop [qB, qA] = some (qB, [qA])) := by
  exact ⟨rfl, by decide, by decide⟩

/-- C3 (amended): over every sequence of pushes and pops from the empty
queue, each pop returns a task whose priority value is minimal among
the queued tasks; the insertion-order (FIFO) half of the claim is false
- there is no sequence-number tie-break, so equal-priority tasks can
surface out of insertion order. -/
theorem heappop_returns_min_priority (ops : List QOp) (t : Planner.Task)
    (q' : List Planner.Task)
    (hpop : Planner.heappop (runQueue ops) = some (t, q')) :
    ∀ u ∈ runQueue ops, Planner.pri t ≤ Planner.pri u :=
  Planner.heappop_min (runQueue_isHeap ops) hpop

/-- Witness for C3's amended theorem at a concrete two-push run. -/
theorem heappop_returns_min_priority_witness :
    (let qA := Planner.Task.mk0 "A" "social" "post" Planner.TaskPriority.HIGH
     let qB := Planner.Task.mk0 "B" "trading" "trade" Planner.TaskPriority.CRITICAL
     Planner.pri qB ≤ Planner.pri qA) :=
  heappop_returns_min_priority [QOp.push
      (Planner.Task.mk0 "A" "social" "post" Planner.TaskPriority.HIGH),
    QOp.push (Planner.Task.mk0 "B" "trading" "trade" Planner.TaskPriority.CRITICAL)]
    (Planner.Task.mk0 "B" "trading" "trade" Planner.TaskPriority.CRITICAL)
    [Planner.Task.mk0 "A" "social" "post" Planner.TaskPriority.HIGH]
    (by decide)
    (Planner.Task.mk0 "A" "social" "post" Planner.TaskPriority.HIGH)
    (by decide)

namespace Planner

/-- Full specification of the `get_next_task` loop (helper for C6):
every skipped ("dropped") task is over budget and is returned exactly
as it was popped (no mutation), a returned task is under budget, an
empty result means the queue was drained, and the input queue's
contents are exactly the dropped tasks plus the returned task plus the
remaining queue. -/
theorem getNextLoop_spec :
    ∀ fuel (q : List Task), q.length ≤ fuel →
      (∀ t, (getNextLoop fuel q).1 = some t → t.attempts < t.max_attempts) ∧
      (∀ t ∈ (getNextLoop fuel q).2.2, t.max_attempts ≤ t.attempts) ∧
      ((getNextLoop fuel q).1 = none → (getNextLoop fuel q).2.1 = []) ∧
      ((q : Multiset Task) =
        ((getNextLoop fuel q).2.2 : Multiset Task) +
        (((getNextLoop fuel q).1.toList : List Task) : Multiset Task) +
        ((getNextLoop fuel q).2.1 : Multiset Task)) := by
  intro fuel
  induction fuel with
  | zero =>
    intro q hfuel
    have hq : q = [] := List.length_eq_zero.mp (by omega)
    subst hq
    refine ⟨?_, ?_, ?_, ?_⟩ <;> simp [getNextLoop]
  | succ fuel ih =>
    intro q hfuel
    cases hpop : heappop q with
    | none =>
      have hq : q = [] := heappop_eq_none.mp hpop
      subst hq
      refine ⟨?_, ?_, ?_, ?_⟩ <;> simp [getNextLoop, heappop]
    | some r =>
      obtain ⟨t, q'⟩ := r
      have hlen : q'.length + 1 = q.length := heappop_length hpop
      have hq' : q'.length ≤ fuel := by omega
      have hmult : (q : Multiset Task) = t ::ₘ (q' : Multiset Task) :=
        heappop_mset hpop
      by_cases hmax : t.max_attempts ≤ t.attempts
      · have hred : getNextLoop (fuel + 1) q =
            ((getNextLoop fuel q').1, (getNextLoop fuel q').2.1,
              t :: (getNextLoop fuel q').2.2) := by
          simp only [getNextLoop, hpop, if_pos hmax]
        rw [hred]
        obtain ⟨ih1, ih2, ih3, ih4⟩ := ih q' hq'
        refine ⟨ih1, ?_, ih3, ?_⟩
        · intro u hu
          rcases List.mem_cons.mp hu with rfl | hu
          · exact hmax
          · exact ih2 u hu
        · rw [hmult, ih4, ← Multiset.cons_coe, Multiset.cons_add, Multiset.cons_add]
      · have hred : getNextLoop (fuel + 1) q = (some t, q', []) := by
          simp only [getNextLoop, hpop, if_neg hmax]
        rw [hred]
        refine ⟨?_, ?_, ?_, ?_⟩
        · intro u hu
          simp only [Option.some.injEq] at hu
          subst hu
          omega
        · intro u hu
          simp at hu
        · intro hnone
          simp at hnone
        · simp only [Option.toList]
          rw [hmult]
          have hsing : (([t] : List Task) : Multiset Task) = ({t} : Multiset Task) := rfl
          rw [hsing]
          have hnil : (([] : List Task) : Multiset Task) = 0 := rfl
          rw [hnil, zero_add, Multiset.singleton_add]
  
end Planner

/-- C6 counterexample: a pending task that has exhausted its attempts
is silently dropped by `get_next_task` - the loop only logs and
`continue`s - so its status stays "pending" and is never set to
"failed" as the claim states. -/
theorem get_next_task_no_failed_marking_counterexample :
    (let tm : Planner.Task := { name := "apply_job", task_type := "freelance",
                                action := "apply",
                                priority := Planner.TaskPriority.HIGH, target := "",
                                attempts := 3, max_attempts := 3, status := "pending" }
     Planner.get_next_task [tm] = (none, [], [tm]) ∧
     tm.status = "pending" ∧ tm.status ≠ "failed") := by
  exact ⟨by decide, rfl, by decide⟩

/-- C6 (amended): `get_next_task` drops each popped task whose attempts
reached `max_attempts` WITHOUT mutating it (in particular its status is
not set to "failed" - the tasks come back exactly as queued), never
returns such a task, returns the first popped task still under its
retry budget, and returns none with a drained queue when no such task
remains; the queue splits exactly into dropped tasks, the returned
task, and the remainder. -/
theorem get_next_task_skips_exhausted (q : List Planner.Task) :
    (∀ t, (Planner.get_next_task q).1 = some t → t.attempts < t.max_attempts) ∧
    (∀ t ∈ (Planner.get_next_task q).2.2, t.max_attempts ≤ t.attempts) ∧
    ((Planner.get_next_task q).1 = none → (Planner.get_next_task q).2.1 = []) ∧
    q.Perm ((Planner.get_next_task q).2.2 ++
      (Planner.get_next_task q).1.toList ++ (Planner.get_next_task q).2.1) := by
  obtain ⟨h1, h2, h3, h4⟩ := Planner.getNextLoop_spec q.length q (Nat.le_refl _)
  refine ⟨h1, h2, h3, ?_⟩
  rw [← Multiset.coe_eq_coe, ← Multiset.coe_add, ← Multiset.coe_add]
  exact h4

/-- Witness for C6 at a one-task queue whose task is out of budget. -/
theorem get_next_task_skips_exhausted_witness :
    (let tm : Planner.Task := { name := "apply_job", task_type := "freelance",
                                action := "apply",
                                priority := Planner.TaskPriority.HIGH, target := "",
                                attempts := 3, max_attempts := 3, status := "pending" }
     (Planner.get_next_task [tm]).2.1 = []) :=
  (get_next_task_skips_exhausted
      [{ name := "apply_job", task_type := "freelance", action := "apply",
         priority := Planner.TaskPriority.HIGH, target := "", attempts := 3,
         max_attempts := 3, status := "pending" }]).2.2.1 (by decide)
